import Mathlib

/-!
Verification of the xcontest-rss-monitor repository's core data structures
and poll-loop logic, as a shallow embedding of the Python sources
(`monitor.py`, `xcontest.py`, `telegram_bot.py`).

Conventions of the embedding:
* Python `dict`s (insertion ordered) become association lists; key lookup,
  in-place value update (which keeps the originally stored key object) and
  deletion are modelled explicitly.
* Python `set`s become insertion-ordered duplicate-free lists with explicit
  add/remove operations.
* Timezone-aware `datetime` values are modelled by their instant
  (microseconds since an epoch, an `Int`); comparison of aware datetimes in
  Python is comparison of instants.  The ISO-8601 string codec
  (`datetime.isoformat` / `datetime.fromisoformat`) is Python-stdlib code
  outside this repository; it is an invertible encoding of an aware
  datetime, so the persisted field carries the instant value itself.
* Exceptions become `Except String`; an uncaught exception short-circuits
  the computation it escapes from.
* Network effects (pilot-id resolution, `bot.send_message` outcomes, feed
  fetching) are oracles passed in as function arguments.
-/

/-- Instant of a timezone-aware `datetime.datetime` (microseconds since an
epoch).  Aware datetimes compare by instant. -/
structure DateTime where
  micros : Int
deriving DecidableEq, Repr

/-- Flight dataclass of `monitor.py` (`@dataclass(unsafe_hash=True)` with no
custom `__eq__`): the generated equality and hash cover all three fields. -/
structure MFlight where
  title : String
  link : String
  datetime : DateTime
deriving DecidableEq, Repr

/-- Hash basis of `monitor.py`'s `Flight`: `@dataclass(unsafe_hash=True)`
derives `__hash__` from the tuple of all fields. -/
def mflightHashKey (f : MFlight) : String × String × DateTime :=
  (f.title, f.link, f.datetime)

/-- The `History._flights` dict of `monitor.py`: key = flight (full-record
equality), value = "is touched in current round". -/
abbrev History : Type := List (MFlight × Bool)

/-- Dict lookup in `History._flights`. -/
def History.find : History → MFlight → Option Bool
  | [], _ => none
  | (k, v) :: t, f => if k = f then some v else History.find t f

/-- Dict assignment `self._flights[flight] = True`: update the value of an
existing key in place (keeping the stored key), else append. -/
def History.setTouched : History → MFlight → History
  | [], f => [(f, true)]
  | (k, v) :: t, f => if k = f then (k, true) :: t else (k, v) :: History.setTouched t f

/-- Method `History.add` of `monitor.py`: `self._flights[flight] = True`. -/
def History.add (h : History) (f : MFlight) : History :=
  History.setTouched h f

/-- Method `History.__contains__` of `monitor.py`: if the flight is present
its touched flag is set to `True` (observational and mutating); returns
whether it was present. -/
def History.containsTouch (h : History) (f : MFlight) : Bool × History :=
  if (History.find h f).isSome then (true, History.setTouched h f) else (false, h)

/-- Method `History.next_round` of `monitor.py`: delete every entry whose
touched flag is `False`, reset the flag of every surviving entry. -/
def History.next_round (h : History) : History :=
  (h.filter (fun e => e.2)).map (fun e => (e.1, false))

/-- A Python dict never holds two equal keys; `History` values reachable
from an empty dict satisfy this. -/
def History.nodupKeys (h : History) : Prop :=
  (h.map (fun e => e.1)).Nodup

-- Basic lemmas about the History model.

theorem History.find_eq_none_of_not_mem {h : History} {f : MFlight}
    (hf : f ∉ h.map (fun e => e.1)) : History.find h f = none := by
  induction h with
  | nil => rfl
  | cons e t ih =>
    simp only [List.map_cons, List.mem_cons, not_or] at hf
    simp only [History.find]
    rw [if_neg (fun hk => hf.1 hk.symm), ih hf.2]

theorem History.find_setTouched (h : History) (f : MFlight) :
    History.find (History.setTouched h f) f = some true := by
  induction h with
  | nil => simp [History.setTouched, History.find]
  | cons e t ih =>
    obtain ⟨k, v⟩ := e
    by_cases hk : k = f
    · simp [History.setTouched, hk, History.find]
    · simp [History.setTouched, hk, History.find, ih]

theorem History.mem_keys_setTouched {h : History} {f x : MFlight}
    (hx : x ∈ (History.setTouched h f).map (fun e => e.1)) :
    x ∈ h.map (fun e => e.1) ∨ x = f := by
  induction h with
  | nil =>
    simp only [History.setTouched, List.map_cons, List.map_nil, List.mem_singleton] at hx
    exact Or.inr hx
  | cons e t ih =>
    obtain ⟨k, v⟩ := e
    by_cases hk : k = f
    · simp only [History.setTouched, if_pos hk, List.map_cons, List.mem_cons] at hx ⊢
      tauto
    · simp only [History.setTouched, if_neg hk, List.map_cons, List.mem_cons] at hx ⊢
      rcases hx with hx | hx
      · exact Or.inl (Or.inl hx)
      · rcases ih hx with h1 | h1
        · exact Or.inl (Or.inr h1)
        · exact Or.inr h1

theorem History.nodupKeys_setTouched (h : History) (f : MFlight)
    (hnd : h.nodupKeys) : (History.setTouched h f).nodupKeys := by
  induction h with
  | nil => simp [History.setTouched, History.nodupKeys]
  | cons e t ih =>
    obtain ⟨k, v⟩ := e
    simp only [History.nodupKeys, List.map_cons, List.nodup_cons] at hnd
    by_cases hk : k = f
    · simpa [History.setTouched, hk, History.nodupKeys] using hnd
    · simp only [History.setTouched, if_neg hk, History.nodupKeys, List.map_cons,
        List.nodup_cons]
      refine ⟨fun hm => ?_, ih hnd.2⟩
      rcases History.mem_keys_setTouched hm with h1 | h1
      · exact hnd.1 h1
      · exact hk h1

theorem History.next_round_keys_sublist (h : History) :
    ((History.next_round h).map (fun e => e.1)).Sublist (h.map (fun e => e.1)) := by
  have h1 : (History.next_round h).map (fun e => e.1) =
      (h.filter (fun e => e.2)).map (fun e => e.1) := by
    simp [History.next_round]
  rw [h1]
  exact (List.filter_sublist h).map (fun e => e.1)

theorem History.nodupKeys_next_round (h : History) (hnd : h.nodupKeys) :
    (History.next_round h).nodupKeys :=
  List.Nodup.sublist (History.next_round_keys_sublist h) hnd

theorem History.find_next_round (h : History) (f : MFlight) (hnd : h.nodupKeys) :
    History.find (History.next_round h) f =
      (match History.find h f with
       | some true => some false
       | _ => none) := by
  induction h with
  | nil => rfl
  | cons e t ih =>
    obtain ⟨k, v⟩ := e
    simp only [History.nodupKeys, List.map_cons, List.nodup_cons] at hnd
    by_cases hk : k = f
    · subst hk
      cases v with
      | false =>
        have hnone : History.find (History.next_round t) k = none := by
          apply History.find_eq_none_of_not_mem
          intro hm
          exact hnd.1 ((List.Sublist.subset (History.next_round_keys_sublist t)) hm)
        simp only [History.next_round] at hnone
        simp [History.next_round, History.find, hnone]
      | true =>
        simp [History.next_round, History.find]
    · cases v with
      | false =>
        simp only [History.next_round, List.filter_cons, decide_eq_true_eq]
        simp only [History.find, if_neg hk]
        simpa [History.next_round] using ih hnd.2
      | true =>
        simp only [History.next_round, List.filter_cons, decide_eq_true_eq]
        simp only [List.map_cons, History.find, if_neg hk]
        simpa [History.next_round] using ih hnd.2

theorem History.containsTouch_fst (h : History) (f : MFlight) :
    (History.containsTouch h f).1 = (History.find h f).isSome := by
  unfold History.containsTouch
  split <;> simp_all

theorem History.containsTouch_snd_of_mem (h : History) (f : MFlight)
    (hmem : (History.find h f).isSome = true) :
    (History.containsTouch h f).2 = History.setTouched h f := by
  unfold History.containsTouch
  simp [hmem]


/-- C4: Round-grace dedup.  If `Contains(f)` (the touching membership test of
`History`) returns true in rounds `n` and `n+1` but is not called in round
`n+2`, then `f` is still present through round `n+2` (its entry survives that
round's `next_round` with flag `false`) and is absent after `next_round` is
called for round `n+3`; moreover `next_round` deletes exactly the entries
whose touched flag is `false` and resets the flag to `false` for all
surviving entries. -/
theorem c4_round_grace_dedup (h : History) (f : MFlight)
    (hnd : h.nodupKeys)
    (hc : (History.containsTouch h f).1 = true) :
    (History.containsTouch (History.next_round (History.containsTouch h f).2) f).1 = true
    ∧ History.find (History.next_round
        (History.containsTouch (History.next_round (History.containsTouch h f).2) f).2) f
        = some false
    ∧ History.find (History.next_round (History.next_round
        (History.containsTouch (History.next_round (History.containsTouch h f).2) f).2)) f
        = none
    ∧ ∀ (h2 : History) (g : MFlight), h2.nodupKeys →
        History.find (History.next_round h2) g =
          (match History.find h2 g with
           | some true => some false
           | _ => none) := by
  have hsome : (History.find h f).isSome = true := by
    rw [History.containsTouch_fst] at hc
    exact hc
  have h1def : (History.containsTouch h f).2 = History.setTouched h f :=
    History.containsTouch_snd_of_mem h f hsome
  have hnd1 : (History.containsTouch h f).2.nodupKeys := by
    rw [h1def]
    exact History.nodupKeys_setTouched h f hnd
  have hf1 : History.find (History.containsTouch h f).2 f = some true := by
    rw [h1def]
    exact History.find_setTouched h f
  have hnd2 : (History.next_round (History.containsTouch h f).2).nodupKeys :=
    History.nodupKeys_next_round _ hnd1
  have hf2 : History.find (History.next_round (History.containsTouch h f).2) f = some false := by
    rw [History.find_next_round _ f hnd1, hf1]
  have hc2 : (History.containsTouch (History.next_round (History.containsTouch h f).2) f).1
      = true := by
    rw [History.containsTouch_fst, hf2]
    rfl
  have h3def : (History.containsTouch (History.next_round (History.containsTouch h f).2) f).2
      = History.setTouched (History.next_round (History.containsTouch h f).2) f :=
    History.containsTouch_snd_of_mem _ _ (by rw [hf2]; rfl)
  have hnd3 : (History.containsTouch (History.next_round (History.containsTouch h f).2) f).2.nodupKeys := by
    rw [h3def]
    exact History.nodupKeys_setTouched _ f hnd2
  have hf3 : History.find
      (History.containsTouch (History.next_round (History.containsTouch h f).2) f).2 f
      = some true := by
    rw [h3def]
    exact History.find_setTouched _ f
  have hf4 : History.find (History.next_round
      (History.containsTouch (History.next_round (History.containsTouch h f).2) f).2) f
      = some false := by
    rw [History.find_next_round _ f hnd3, hf3]
  have hnd4 : (History.next_round
      (History.containsTouch (History.next_round (History.containsTouch h f).2) f).2).nodupKeys :=
    History.nodupKeys_next_round _ hnd3
  have hf5 : History.find (History.next_round (History.next_round
      (History.containsTouch (History.next_round (History.containsTouch h f).2) f).2)) f
      = none := by
    rw [History.find_next_round _ f hnd4, hf4]
  exact ⟨hc2, hf4, hf5, fun h2 g hnd2' => History.find_next_round h2 g hnd2'⟩

/-- Concrete flight used by the C4 witness. -/
def flightW : MFlight :=
  { title := "20.04.19 [28.46 km :: free_flight] Marcin Makuch"
    link := "https://www.xcontest.org/world/en/flights/detail:Filipo/21.04.2019/07:57"
    datetime := ⟨100⟩ }

/-- Witness for C4: the round-grace property evaluated on a one-entry
history containing `flightW`. -/
theorem c4_round_grace_dedup_witness :
    (History.containsTouch (History.next_round
        (History.containsTouch [(flightW, false)] flightW).2) flightW).1 = true
    ∧ History.find (History.next_round
        (History.containsTouch (History.next_round
          (History.containsTouch [(flightW, false)] flightW).2) flightW).2) flightW
        = some false
    ∧ History.find (History.next_round (History.next_round
        (History.containsTouch (History.next_round
          (History.containsTouch [(flightW, false)] flightW).2) flightW).2)) flightW
        = none
    ∧ History.find (History.next_round [(flightW, true)]) flightW =
        (match History.find [(flightW, true)] flightW with
         | some true => some false
         | _ => none) :=
  have h := c4_round_grace_dedup [(flightW, false)] flightW
    (by unfold History.nodupKeys; decide) (by decide)
  ⟨h.1, h.2.1, h.2.2.1, h.2.2.2 [(flightW, true)] flightW
    (by unfold History.nodupKeys; decide)⟩

/-- Pilot dataclass of `xcontest.py`: a handle plus an optionally resolved
stable numeric id (`id: int = None`). -/
structure Pilot where
  username : String
  id : Option Int
deriving DecidableEq, Repr

/-- Custom `Pilot.__eq__` of `xcontest.py`: comparison is by `username`
alone, whether or not `id` has been resolved. -/
def pilotBeq (a b : Pilot) : Bool := decide (a.username = b.username)

/-- Custom `Pilot.__hash__` of `xcontest.py`: `hash(self.username)`; the
hash basis is the username alone. -/
def pilotHashKey (p : Pilot) : String := p.username

/-- Method `Pilot.load_id` of `xcontest.py`: resolve the username to the
stable numeric id through the supplied resolver oracle (network fetch and
process-wide `_pilot_id_cache` combined); raises `ValueError` when no id can
be found for the username. -/
def Pilot.load_id (resolve : String → Option Int) (p : Pilot) : Except String Pilot :=
  match resolve p.username with
  | some i => .ok { p with id := some i }
  | none => .error "Cannot find the pilot ID by a username, it probably does not exist"

/-- Flight dataclass of `xcontest.py` (`@dataclass(frozen=True)` with a
custom `__eq__`). -/
structure Flight where
  title : String
  link : String
  datetime : DateTime
deriving DecidableEq, Repr

/-- Custom `Flight.__eq__` of `xcontest.py`: two flights are equal exactly
when their `link` fields are equal. -/
def flightBeq (a b : Flight) : Bool := decide (a.link = b.link)

/-- Hash basis of `xcontest.py`'s `Flight`: defining `__eq__` in the class
body sets `__hash__ = None`, which the frozen dataclass decorator then
replaces by the field-tuple hash, so hashing covers all fields, not the
`link` alone. -/
def flightHashKey (f : Flight) : String × String × DateTime :=
  (f.title, f.link, f.datetime)

/-- Python `str.split` with a single-character separator. -/
def splitOnChar (sep : Char) : List Char → List (List Char)
  | [] => [[]]
  | c :: cs =>
    let r := splitOnChar sep cs
    if c = sep then [] :: r
    else
      match r with
      | [] => [[c]]
      | h :: t => (c :: h) :: t

/-- Property `Flight.pilot` of `xcontest.py`:
`username = self.link.split("/")[5].split(":")[1]`, wrapped in a fresh
`Pilot` with unresolved id.  The value `none` models the `IndexError` raised
when the link does not have the expected shape. -/
def Flight.pilot (f : Flight) : Option Pilot :=
  match (splitOnChar '/' f.link.toList).get? 5 with
  | none => none
  | some seg =>
    match (splitOnChar ':' seg).get? 1 with
    | none => none
    | some u => some { username := String.mk u, id := none }

/-- Function `download_feed` of `xcontest.py`: rejects an empty pilot filter
with `ValueError` before any request; otherwise issues a GET for the feed
URL built from the ids (the returned value is that request URL; the response
body is external). -/
def download_feed (pilot_ids : List Int) : Except String String :=
  if pilot_ids.isEmpty then .error "Empty pilot filter is not allowed"
  else .ok ("https://www.xcontest.org/rss/flights/?cpp&pilot="
      ++ String.intercalate "|" (pilot_ids.map toString))

/-- C3 counterexample: the claim says two flight records with the same url
are equal even if their titles differ, but the `monitor.py` `Flight` — the
record actually used as a map key in `History` — derives equality from all
fields, so two records with equal links and different titles are NOT
equal. -/
theorem c3_url_identity_counterexample :
    (MFlight.mk "20.04.19 [28.46 km :: free_flight] A"
        "https://www.xcontest.org/world/en/flights/detail:Filipo/21.04.2019/07:57" ⟨0⟩).link
      = (MFlight.mk "20.04.19 [28.46 km :: free_flight] B"
        "https://www.xcontest.org/world/en/flights/detail:Filipo/21.04.2019/07:57" ⟨0⟩).link
    ∧ (MFlight.mk "20.04.19 [28.46 km :: free_flight] A"
        "https://www.xcontest.org/world/en/flights/detail:Filipo/21.04.2019/07:57" ⟨0⟩)
      ≠ (MFlight.mk "20.04.19 [28.46 km :: free_flight] B"
        "https://www.xcontest.org/world/en/flights/detail:Filipo/21.04.2019/07:57" ⟨0⟩) := by
  decide

/-- C3 amended: equality of the `xcontest.py` flight record is by `url`
alone, but the `monitor.py` variant (the one used as a `History` map key)
derives equality and hashing from all fields (title, url, timestamp), and
even the `xcontest.py` variant's hash covers all fields. -/
theorem c3_url_identity_amended :
    (∀ a b : Flight, flightBeq a b = true ↔ a.link = b.link)
    ∧ (∀ a b : MFlight, a = b ↔ a.title = b.title ∧ a.link = b.link ∧ a.datetime = b.datetime)
    ∧ (∀ a : MFlight, mflightHashKey a = (a.title, a.link, a.datetime))
    ∧ (∀ a : Flight, flightHashKey a = (a.title, a.link, a.datetime)) := by
  refine ⟨fun a b => by simp [flightBeq], fun a b => ?_, fun a => rfl, fun a => rfl⟩
  constructor
  · rintro rfl
    exact ⟨rfl, rfl, rfl⟩
  · rintro ⟨h1, h2, h3⟩
    cases a
    cases b
    simp_all

/-- C7 counterexample: the claim says pilot equality is by `stableId` once
resolved, but `Pilot.__eq__` compares usernames unconditionally: two
resolved pilots sharing id 7 are unequal, while two pilots sharing a
username but carrying different resolved ids are equal. -/
theorem c7_pilot_identity_counterexample :
    (Pilot.mk "OldHandle" (some 7)).id = (Pilot.mk "NewHandle" (some 7)).id
    ∧ pilotBeq (Pilot.mk "OldHandle" (some 7)) (Pilot.mk "NewHandle" (some 7)) = false
    ∧ pilotBeq (Pilot.mk "OldHandle" (some 7)) (Pilot.mk "OldHandle" (some 9)) = true := by
  decide

/-- C7 amended: equality and hashing of a `Pilot` are always defined by its
handle (username), both before and after the stable id is resolved. -/
theorem c7_pilot_identity_amended :
    ∀ a b : Pilot, (pilotBeq a b = true ↔ a.username = b.username)
      ∧ pilotHashKey a = a.username := by
  intro a b
  exact ⟨by simp [pilotBeq], rfl⟩

/-- Python set member addition, on the insertion-ordered duplicate-free list
model of a set. -/
def setAdd (l : List Int) (c : Int) : List Int := if c ∈ l then l else l ++ [c]

/-- Python `set.remove`: raises `KeyError` when the element is absent. -/
def setRemove (l : List Int) (c : Int) : Except String (List Int) :=
  if c ∈ l then .ok (l.erase c) else .error "KeyError"

/-- Python `set(xs)` built from a list. -/
def setOfList (xs : List Int) : List Int := xs.foldl setAdd []

/-- PilotData dataclass of `telegram_bot.py`: the set of chat ids the
pilot's flights are posted to, plus the `latest_flight` watermark. -/
structure PilotData where
  chat_ids : List Int
  latest_flight : DateTime
deriving DecidableEq, Repr

/-- The global `state` dict of `telegram_bot.py`: insertion-ordered mapping
from `Pilot` (keyed by `Pilot.__eq__`, i.e. by username) to `PilotData`. -/
abbrev StateMap : Type := List (Pilot × PilotData)

/-- Dict lookup `state[pilot]`, keyed by `Pilot.__eq__` (username). -/
def stateFind : StateMap → Pilot → Option PilotData
  | [], _ => none
  | (k, v) :: t, p => if k.username = p.username then some v else stateFind t p

/-- Dict assignment `state[pilot] = data`: update the value of an existing
key in place (keeping the stored key object), else append a new entry. -/
def stateInsert : StateMap → Pilot → PilotData → StateMap
  | [], p, d => [(p, d)]
  | (k, v) :: t, p, d =>
    if k.username = p.username then (k, d) :: t else (k, v) :: stateInsert t p d

/-- Dict deletion `del state[pilot]`: remove the entry whose key equals the
pilot. -/
def stateErase : StateMap → Pilot → StateMap
  | [], _ => []
  | (k, v) :: t, p => if k.username = p.username then t else (k, v) :: stateErase t p

/-- Linear scan of `get_state_item_by_pilot_id` (telegram_bot.py): the first
entry whose key has the wanted resolved id. -/
def findById : StateMap → Int → Option (Pilot × PilotData)
  | [], _ => none
  | e :: t, i => if e.1.id = some i then some e else findById t i

/-- Function `get_state_item_by_pilot_id` of `telegram_bot.py`: raises
`ValueError` when no entry has the wanted id. -/
def get_state_item_by_pilot_id (st : StateMap) (i : Int) :
    Except String (Pilot × PilotData) :=
  match findById st i with
  | some e => .ok e
  | none => .error "Pilot with id not found in the state"

/-- Usernames of the state keys are pairwise distinct (a Python dict cannot
hold two keys that compare equal, and `Pilot.__eq__` compares usernames). -/
def usernameNodup (st : StateMap) : Prop := (st.map (fun e => e.1.username)).Nodup

/-- Resolved ids of the state keys are pairwise distinct. -/
def idNodup (st : StateMap) : Prop := (st.filterMap (fun e => e.1.id)).Nodup

/-- One record of the persisted JSON array, as written by `save_state`.  The
ISO-8601 rendering of `latest_flight` is the Python-stdlib codec — an
invertible encoding of an aware datetime — so the field carries the instant
value; string encoding of the scalar fields likewise belongs to the `json`
stdlib boundary. -/
structure StoredItem where
  username : String
  id : Option Int
  chat_ids : List Int
  latest_flight : DateTime
deriving DecidableEq, Repr

/-- One record of the persisted JSON array as read back by `load_state`:
each field is `none` when its key is missing or its value cannot be decoded
(modelling the `KeyError`/`ValueError` raised by `item[...]` or
`datetime.fromisoformat`). -/
structure RawItem where
  username : Option String
  id : Option (Option Int)
  chat_ids : Option (List Int)
  latest_flight : Option DateTime
deriving DecidableEq, Repr

/-- Contents of the state file at startup, as `load_state` can encounter
them: missing, present but not parseable as JSON, or a parsed JSON array of
records. -/
inductive FileContent where
  | missing : FileContent
  | badJson : FileContent
  | parsed : List RawItem → FileContent

/-- Decode one record of the state file into a state entry, as the body of
the `for item in data` loop of `load_state` does; a missing or undecodable
field raises (uncaught). -/
def decodeItem (it : RawItem) : Except String (Pilot × PilotData) :=
  match it.username, it.id, it.chat_ids, it.latest_flight with
  | some u, some i, some cs, some lf =>
      .ok ({ username := u, id := i }, { chat_ids := setOfList cs, latest_flight := lf })
  | _, _, _, _ => .error "malformed state item"

/-- Decoding succeeded for a raw item. -/
def decodeOk (it : RawItem) : Bool :=
  match decodeItem it with
  | .ok _ => true
  | .error _ => false

/-- The item loop of `load_state`: insert decoded records one at a time into
the (global) state; an undecodable record raises, leaving the records
already inserted in place. -/
def loadLoop : StateMap → List RawItem → Except String Unit × StateMap
  | st, [] => (.ok (), st)
  | st, it :: t =>
    match decodeItem it with
    | .error e => (.error e, st)
    | .ok (p, d) => loadLoop (stateInsert st p d) t

/-- Function `load_state` of `telegram_bot.py`.  Components of the result:
the outcome (an `error` is an exception escaping `load_state`), the
in-memory state afterwards, and whether an empty JSON array was written to
the file (the missing-file branch). -/
def load_state (fc : FileContent) (st : StateMap) :
    Except String Unit × StateMap × Bool :=
  match fc with
  | .missing => (.ok (), st, true)
  | .badJson => (.error "JSONDecodeError", st, false)
  | .parsed items =>
    match loadLoop st items with
    | (r, st1) => (r, st1, false)

/-- Function `save_state` of `telegram_bot.py`: serialise the state in
iteration order. -/
def save_state (st : StateMap) : List StoredItem :=
  st.map (fun e =>
    { username := e.1.username, id := e.1.id,
      chat_ids := e.2.chat_ids, latest_flight := e.2.latest_flight })

/-- Reading back a record that `save_state` wrote: every field is present
and decodable. -/
def StoredItem.toRaw (s : StoredItem) : RawItem :=
  { username := some s.username, id := some s.id,
    chat_ids := some s.chat_ids, latest_flight := some s.latest_flight }

/-- Helper for C8: the state after inserting all decodable records of a
prefix (stopping at the first failure). -/
def loadOkState : StateMap → List RawItem → StateMap
  | st, [] => st
  | st, it :: t =>
    match decodeItem it with
    | .ok (p, d) => loadOkState (stateInsert st p d) t
    | .error _ => st

theorem foldl_setAdd_of_nodup (l : List Int) :
    ∀ acc : List Int, (acc ++ l).Nodup → l.foldl setAdd acc = acc ++ l := by
  induction l with
  | nil => intro acc _; simp
  | cons x t ih =>
    intro acc hnd
    have hx : x ∉ acc := by
      rcases (List.nodup_append.mp hnd) with ⟨_, _, hdisj⟩
      intro hm
      exact hdisj hm (List.mem_cons_self x t)
    have hstep : setAdd acc x = acc ++ [x] := by simp [setAdd, hx]
    have hnd2 : ((acc ++ [x]) ++ t).Nodup := by simpa using hnd
    rw [List.foldl_cons, hstep, ih (acc ++ [x]) hnd2]
    simp

theorem setOfList_of_nodup (l : List Int) (h : l.Nodup) : setOfList l = l := by
  simpa using foldl_setAdd_of_nodup l [] (by simpa using h)

theorem stateInsert_append_of_not_mem (st : StateMap) (p : Pilot) (d : PilotData)
    (h : p.username ∉ st.map (fun e => e.1.username)) :
    stateInsert st p d = st ++ [(p, d)] := by
  induction st with
  | nil => rfl
  | cons e t ih =>
    obtain ⟨k, v⟩ := e
    simp only [List.map_cons, List.mem_cons, not_or] at h
    have hk : ¬ k.username = p.username := fun hk => h.1 hk.symm
    simp only [stateInsert, if_neg hk, List.cons_append]
    rw [ih h.2]

/-- C8 counterexample: a present-but-malformed state file does not always
leave the in-memory store unmutated — with a parseable JSON array whose
second record is undecodable, `load_state` raises only after having inserted
the first record into the store. -/
theorem c8_load_state_counterexample :
    load_state (.parsed
        [{ username := some "alice", id := some (some 1),
           chat_ids := some [10], latest_flight := some ⟨100⟩ },
         { username := some "bob", id := some (some 2),
           chat_ids := some [11], latest_flight := none }]) [] =
      (.error "malformed state item",
       [({ username := "alice", id := some 1 },
         { chat_ids := [10], latest_flight := ⟨100⟩ })],
       false) := by
  rfl

/-- C8 amended: a missing state file initialises the store unchanged (empty
at startup) and writes an empty array; a file that is not parseable as JSON
fails fatally with no store mutation; a parseable file with an undecodable
record fails fatally with no recovery attempt, but the well-formed records
preceding the bad one have already been inserted into the in-memory store
when the error propagates. -/
theorem c8_load_state_amended (st : StateMap) (pre : List RawItem) (bad : RawItem)
    (post : List RawItem) (e : String)
    (hpre : ∀ it ∈ pre, decodeOk it = true)
    (hbad : decodeItem bad = .error e) :
    load_state .missing st = (.ok (), st, true)
    ∧ load_state .badJson st = (.error "JSONDecodeError", st, false)
    ∧ load_state (.parsed (pre ++ bad :: post)) st = (.error e, loadOkState st pre, false) := by
  refine ⟨rfl, rfl, ?_⟩
  revert hpre
  induction pre generalizing st with
  | nil =>
    intro _
    simp [load_state, loadLoop, loadOkState, hbad]
  | cons it t ih =>
    intro hpre
    have hit := hpre it (List.mem_cons_self it t)
    cases hd : decodeItem it with
    | error err => simp [decodeOk, hd] at hit
    | ok pd =>
      have hrec := ih (stateInsert st pd.1 pd.2) (fun x hx => hpre x (List.mem_cons_of_mem _ hx))
      simp only [load_state, List.cons_append, loadLoop, hd, loadOkState] at hrec ⊢
      exact hrec

/-- Witness for C8 at a concrete store and file contents. -/
theorem c8_load_state_witness :
    load_state .missing [] = (.ok (), [], true)
    ∧ load_state .badJson [] = (.error "JSONDecodeError", [], false)
    ∧ load_state (.parsed
        ([{ username := some "alice", id := some (some 1),
            chat_ids := some [10], latest_flight := some ⟨100⟩ }] ++
         { username := some "bob", id := some (some 2),
           chat_ids := some [11], latest_flight := (none : Option DateTime) } :: [])) [] =
      (.error "malformed state item",
       loadOkState []
         [{ username := some "alice", id := some (some 1),
            chat_ids := some [10], latest_flight := some ⟨100⟩ }],
       false) :=
  c8_load_state_amended [] _ _ [] "malformed state item" (by decide) (by rfl)

theorem loadLoop_save (st : StateMap) :
    ∀ acc : StateMap,
    (∀ e ∈ st, e.2.chat_ids.Nodup) →
    (∀ e ∈ st, e.1.username ∉ acc.map (fun x => x.1.username)) →
    usernameNodup st →
    loadLoop acc ((save_state st).map StoredItem.toRaw) = (.ok (), acc ++ st) := by
  induction st with
  | nil => intro acc _ _ _; simp [save_state, loadLoop]
  | cons e t ih =>
    intro acc hchat hdisj hu
    have hdec : decodeItem (StoredItem.toRaw
        { username := e.1.username, id := e.1.id,
          chat_ids := e.2.chat_ids, latest_flight := e.2.latest_flight }) =
        .ok (e.1, e.2) := by
      have hn : e.2.chat_ids.Nodup := hchat e (List.mem_cons_self e t)
      simp [StoredItem.toRaw, decodeItem, setOfList_of_nodup _ hn]
    have hins : stateInsert acc e.1 e.2 = acc ++ [(e.1, e.2)] :=
      stateInsert_append_of_not_mem acc e.1 e.2 (hdisj e (List.mem_cons_self e t))
    have hu' : usernameNodup t := by
      simpa [usernameNodup, List.nodup_cons] using (List.nodup_cons.mp hu).2
    have hhd : e.1.username ∉ t.map (fun x => x.1.username) := by
      simpa [usernameNodup, List.nodup_cons] using (List.nodup_cons.mp hu).1
    have hdisj' : ∀ x ∈ t, x.1.username ∉ (acc ++ [(e.1, e.2)]).map (fun y => y.1.username) := by
      intro x hx
      simp only [List.map_append, List.mem_append, List.map_cons, List.map_nil,
        List.mem_singleton, not_or]
      refine ⟨hdisj x (List.mem_cons_of_mem _ hx), fun hxe => ?_⟩
      exact hhd (by
        have : x.1.username ∈ t.map (fun y => y.1.username) := List.mem_map_of_mem _ hx
        rwa [hxe] at this)
    have hrec := ih (acc ++ [(e.1, e.2)]) (fun x hx => hchat x (List.mem_cons_of_mem _ hx))
      hdisj' hu'
    simp only [save_state, List.map_cons, loadLoop, hdec, hins] at hrec ⊢
    rw [hrec]
    simp [save_state]

/-- C10: persistence round-trip.  For every in-memory subscription state (a
finite map keyed by username-distinct pilots, each with duplicate-free chat
id sets; the claim's further restrictions — resolved ids, non-empty chat
sets, timezone-aware watermarks — are not even needed), saving the state and
then loading what was saved reconstructs exactly the original state: the
same pilots with the same ids, the same chat id sets, and equal
`latest_flight` values. -/
theorem c10_persistence_roundtrip (st : StateMap)
    (hu : usernameNodup st)
    (hchat : ∀ e ∈ st, e.2.chat_ids.Nodup) :
    load_state (.parsed ((save_state st).map StoredItem.toRaw)) [] = (.ok (), st, false) := by
  have h := loadLoop_save st [] hchat (by simp) hu
  simp only [load_state, h]
  simp

/-- Witness for C10 at a one-entry store. -/
theorem c10_persistence_roundtrip_witness :
    load_state (.parsed ((save_state
        [({ username := "alice", id := some 1 },
          { chat_ids := [10, 11], latest_flight := ⟨100⟩ })]).map StoredItem.toRaw)) [] =
      (.ok (),
       [({ username := "alice", id := some 1 },
         { chat_ids := [10, 11], latest_flight := ⟨100⟩ })],
       false) :=
  c10_persistence_roundtrip _ (by unfold usernameNodup; decide) (by decide)

/-- Outcome of one `bot.send_message` call, as classified by the handlers in
`watch`: success, `BotBlocked` (permanent rejection), or a
`ClientError`/`TimeoutError` (transient failure). -/
inductive SendResult where
  | ok : SendResult
  | blocked : SendResult
  | transientErr : SendResult
deriving DecidableEq, Repr

/-- Result of the inner `for chat_id in pilot_data.chat_ids` loop of
`watch`: either the loop ran over all targets (`done`, collecting the
successfully sent chats and the chats whose `BotBlocked` was caught and
queued for unregistration), or it was aborted part-way by a transient error
(`aborted`, keeping the chats already sent or blocked up to that point). -/
inductive DispatchRes where
  | done : List Int → List Int → DispatchRes
  | aborted : List Int → List Int → DispatchRes
deriving DecidableEq, Repr

/-- The inner `for chat_id in pilot_data.chat_ids` loop of `watch`. -/
def dispatchChats (s1 : Int → SendResult) : List Int → DispatchRes
  | [] => .done [] []
  | c :: cs =>
    match s1 c with
    | .transientErr => .aborted [] []
    | .ok =>
      match dispatchChats s1 cs with
      | .done s b => .done (c :: s) b
      | .aborted s b => .aborted (c :: s) b
    | .blocked =>
      match dispatchChats s1 cs with
      | .done s b => .done s (c :: b)
      | .aborted s b => .aborted s (c :: b)

/-- Observable effects of the poll loop, for stating what a cycle did. -/
inductive Act where
  | fetched : Act
  | sent : Flight → Int → Act
  | posted : Flight → Act
  | skippedOld : Flight → Act
  | renamed : Pilot → Pilot → Act
  | sleptBackoff : Act
  | sleptIdle : Act
  | savedState : Act
deriving DecidableEq, Repr

/-- The `state[flight.pilot]` lookup of `watch` together with its
`except KeyError` rename-recovery block: on a key miss the embedded handle
is re-resolved (`Pilot(...).load_id`, whose `ValueError` propagates), the
existing record is located by stable id (`get_state_item_by_pilot_id`, whose
`ValueError` propagates), and the record is rekeyed to the new handle.
Returns the key to use for the flight, its data, the possibly rekeyed state,
and the rename trace. -/
def lookupOrRename (resolve : String → Option Int) (st : StateMap) (p : Pilot) :
    Except String (Pilot × PilotData × StateMap × List Act) :=
  match stateFind st p with
  | some d => .ok (p, d, st, [])
  | none =>
    match resolve p.username with
    | none => .error "Cannot find the pilot ID by a username, it probably does not exist"
    | some i =>
      match get_state_item_by_pilot_id st i with
      | .error e => .error e
      | .ok (old, d) =>
        .ok ({ username := p.username, id := some i }, d,
             stateErase (stateInsert st { username := p.username, id := some i } d) old,
             [.renamed old { username := p.username, id := some i }])

/-- Body of the `for flight in flights_sorted` loop of `watch` for one
flight: rename recovery, novelty check against the watermark, dispatch to
every subscribed chat, watermark advance, transient-failure backoff.  An
`error` is an uncaught exception escaping the loop (killing the watch
task). -/
def processOne (resolve : String → Option Int) (send : Flight → Int → SendResult)
    (st : StateMap) (tU : List (Pilot × Int)) (f : Flight) :
    Except String (StateMap × List (Pilot × Int) × List Act) :=
  match Flight.pilot f with
  | none => .error "IndexError"
  | some p =>
    match lookupOrRename resolve st p with
    | .error e => .error e
    | .ok (key, d, st1, ra) =>
      if f.datetime.micros ≤ d.latest_flight.micros then
        .ok (st1, tU, ra ++ [.skippedOld f])
      else
        match dispatchChats (send f) d.chat_ids with
        | .aborted s b =>
          .ok (st1, tU ++ b.map (fun c => (p, c)),
               ra ++ s.map (fun c => Act.sent f c) ++ [.sleptBackoff])
        | .done s b =>
          .ok (stateInsert st1 key { d with latest_flight := f.datetime },
               tU ++ b.map (fun c => (p, c)),
               ra ++ s.map (fun c => Act.sent f c) ++ [.posted f])

/-- The whole dispatch phase of one poll cycle (`for flight in
flights_sorted`), threading state, the `to_unregister` list, and the action
trace; an uncaught exception aborts the remaining flights. -/
def processFlights (resolve : String → Option Int) (send : Flight → Int → SendResult) :
    StateMap → List (Pilot × Int) → List Act → List Flight →
    Except String (StateMap × List (Pilot × Int) × List Act)
  | st, tU, acc, [] => .ok (st, tU, acc)
  | st, tU, acc, f :: fs =>
    match processOne resolve send st tU f with
    | .error e => .error e
    | .ok (st1, tU1, a) => processFlights resolve send st1 tU1 (acc ++ a) fs

/-- Function `_unregister` of `telegram_bot.py`: remove the chat from the
pilot's target set (`set.remove`, raising `KeyError` when absent), deleting
the whole record when the set empties. -/
def unregisterOne (st : StateMap) (p : Pilot) (c : Int) : Except String StateMap :=
  match stateFind st p with
  | none => .error "KeyError"
  | some d =>
    match setRemove d.chat_ids c with
    | .error e => .error e
    | .ok rest =>
      if rest.isEmpty then .ok (stateErase st p)
      else .ok (stateInsert st p { d with chat_ids := rest })

/-- The `for pilot, chat_id in to_unregister` loop at the end of a poll
cycle. -/
def runUnregisters : StateMap → List (Pilot × Int) → Except String StateMap
  | st, [] => .ok st
  | st, (p, c) :: t =>
    match unregisterOne st p c with
    | .error e => .error e
    | .ok st1 => runUnregisters st1 t

/-- Stable insertion into a list sorted by flight datetime (the new element
goes after existing elements with an equal or smaller key). -/
def insFlight (x : Flight) : List Flight → List Flight
  | [] => [x]
  | y :: l =>
    if y.datetime.micros ≤ x.datetime.micros then y :: insFlight x l else x :: y :: l

/-- The `sorted(flights, key=lambda f: f.datetime)` of `watch`: stable sort
by timestamp ascending. -/
def sortFlights (fs : List Flight) : List Flight :=
  fs.foldl (fun acc x => insFlight x acc) []

/-- The `pilot_ids = {pilot.id for pilot in state.keys()}` set comprehension
of `watch` (a set of optional ids: an unresolved key would contribute
`None`); it is empty exactly when the state has no keys. -/
def pilotIds (st : StateMap) : List (Option Int) :=
  (st.map (fun e => e.1.id)).dedup

/-- Outcome of one iteration of the `while True` loop of `watch`. -/
inductive CycleResult where
  | idle : CycleResult
  | backoff : CycleResult
  | crashed : String → CycleResult
  | ran : StateMap → CycleResult
deriving DecidableEq, Repr

/-- One iteration of the `while True` loop of `watch`: empty-filter idle
sleep (no fetch), fetch with backoff on transient failure, sort, dispatch,
deferred unregisters, `save_state`.  The fetch outcome and feed contents are
the external oracle inputs. -/
def watchCycle (resolve : String → Option Int) (send : Flight → Int → SendResult)
    (fetchOk : Bool) (feed : List Flight) (st : StateMap) : CycleResult × List Act :=
  if (pilotIds st).isEmpty then (.idle, [.sleptIdle])
  else if fetchOk then
    match processFlights resolve send st [] [.fetched] (sortFlights feed) with
    | .error e => (.crashed e, [.fetched])
    | .ok (st1, tU, acts) =>
      match runUnregisters st1 tU with
      | .error e => (.crashed e, acts)
      | .ok st2 => (.ran st2, acts ++ [.savedState])
  else (.backoff, [.fetched, .sleptBackoff])

/-- C9: empty-filter handling.  When the set of subscribed identities is
empty the poll cycle sleeps the idle interval and restarts without
attempting any fetch (the action trace is exactly the idle sleep), and
`download_feed` rejects every empty pilot-id filter with `ValueError` before
issuing a request. -/
theorem c9_empty_filter (resolve : String → Option Int) (send : Flight → Int → SendResult)
    (fetchOk : Bool) (feed : List Flight) (st : StateMap)
    (h : (pilotIds st).isEmpty = true) :
    watchCycle resolve send fetchOk feed st = (.idle, [.sleptIdle])
    ∧ download_feed [] = .error "Empty pilot filter is not allowed" := by
  constructor
  · simp [watchCycle, h]
  · rfl

/-- Witness for C9 at the empty store. -/
theorem c9_empty_filter_witness :
    watchCycle (fun _ => none) (fun _ _ => SendResult.ok) true [] [] =
      (CycleResult.idle, [Act.sleptIdle])
    ∧ download_feed [] = .error "Empty pilot filter is not allowed" :=
  c9_empty_filter (fun _ => none) (fun _ _ => SendResult.ok) true [] [] (by rfl)

/-- Subscribed pilot fixture for the dispatch theorems. -/
def pilotA : Pilot := { username := "Bull77", id := some 1 }

/-- First (older) flight of the batch fixture. -/
def flightA1 : Flight :=
  { title := "19.05.20 [10.00 km :: free_flight] A"
    link := "https://www.xcontest.org/cesko/prelety/detail:Bull77/19.05.2020/14:32"
    datetime := ⟨1⟩ }

/-- Second (newer) flight of the batch fixture. -/
def flightA2 : Flight :=
  { title := "20.05.20 [12.00 km :: free_flight] B"
    link := "https://www.xcontest.org/cesko/prelety/detail:Bull77/20.05.2020/10:00"
    datetime := ⟨2⟩ }

/-- Send oracle that fails transiently exactly on the first fixture flight. -/
def sendTransientFirst : Flight → Int → SendResult :=
  fun f _ => if f.datetime.micros = 1 then .transientErr else .ok

/-- C1 counterexample: a transient delivery failure does NOT abort dispatch
for the remainder of the cycle.  With a two-flight batch whose first flight
fails transiently, the loop sleeps the backoff and then still dispatches the
second flight of the same fetched batch (the trace contains the send and
post of `flightA2` after the backoff sleep), instead of restarting the cycle
from step 1. -/
theorem c1_transient_counterexample :
    processFlights (fun _ => none) sendTransientFirst
        [(pilotA, { chat_ids := [10], latest_flight := ⟨0⟩ })] [] [] [flightA1, flightA2] =
      .ok ([(pilotA, { chat_ids := [10], latest_flight := ⟨2⟩ })], [],
        [Act.sleptBackoff, Act.sent flightA2 10, Act.posted flightA2])
    ∧ Act.sent flightA2 10 ∈
        [Act.sleptBackoff, Act.sent flightA2 10, Act.posted flightA2] := by
  exact ⟨rfl, by decide⟩

/-- C1 amended: a delivery failure classified as transient aborts the
dispatch of that one flight only — the identity's watermark is left
unchanged, the backoff sleep is recorded — and the loop then continues with
the remaining flights of the current fetched batch (`continue` targets the
flight loop); only a fetch failure restarts the entire cycle from step 1. -/
theorem c1_transient_continues (resolve : String → Option Int)
    (send : Flight → Int → SendResult) (st : StateMap) (tU : List (Pilot × Int))
    (acc : List Act) (f : Flight) (fs : List Flight) (p : Pilot) (d : PilotData)
    (s b : List Int)
    (hp : Flight.pilot f = some p)
    (hfind : stateFind st p = some d)
    (hnew : d.latest_flight.micros < f.datetime.micros)
    (hdisp : dispatchChats (send f) d.chat_ids = .aborted s b) :
    processFlights resolve send st tU acc (f :: fs) =
      processFlights resolve send st (tU ++ b.map (fun c => (p, c)))
        (acc ++ (s.map (fun c => Act.sent f c) ++ [Act.sleptBackoff])) fs := by
  have hle : ¬ f.datetime.micros ≤ d.latest_flight.micros := not_le.mpr hnew
  simp [processFlights, processOne, lookupOrRename, hp, hfind, hle, hdisp]

/-- Witness for C1 amended at the concrete fixture. -/
theorem c1_transient_continues_witness :
    processFlights (fun _ => none) sendTransientFirst
        [(pilotA, { chat_ids := [10], latest_flight := ⟨0⟩ })] [] [] (flightA1 :: [flightA2]) =
      processFlights (fun _ => none) sendTransientFirst
        [(pilotA, { chat_ids := [10], latest_flight := ⟨0⟩ })]
        ([] ++ ([] : List Int).map (fun c => (Pilot.mk "Bull77" none, c)))
        ([] ++ (([] : List Int).map (fun c => Act.sent flightA1 c) ++ [Act.sleptBackoff]))
        [flightA2] :=
  c1_transient_continues (fun _ => none) sendTransientFirst
    [(pilotA, { chat_ids := [10], latest_flight := ⟨0⟩ })] [] [] flightA1 [flightA2]
    (Pilot.mk "Bull77" none) { chat_ids := [10], latest_flight := ⟨0⟩ } [] []
    (by rfl) (by rfl) (by decide) (by rfl)

/-- Send oracle whose recipient has blocked the bot (permanent rejection). -/
def sendBlocked : Flight → Int → SendResult := fun _ _ => .blocked

/-- C2 counterexample: the watermark is advanced even though delivery to a
currently subscribed target failed.  With a single subscribed chat that
raises `BotBlocked`, the flight is delivered to nobody, the (pilot, chat)
pair is queued for unregistration, and yet `latest_flight` is advanced to
the flight's timestamp. -/
theorem c2_watermark_counterexample :
    processFlights (fun _ => none) sendBlocked
        [(pilotA, { chat_ids := [10], latest_flight := ⟨0⟩ })] [] [] [flightA1] =
      .ok ([(pilotA, { chat_ids := [10], latest_flight := ⟨1⟩ })],
        [(Pilot.mk "Bull77" none, 10)], [Act.posted flightA1]) := by
  rfl

/-- C2 amended: for a flight that passes the novelty check, the watermark is
advanced to the flight's timestamp exactly when the dispatch loop runs over
all currently subscribed targets without a transient error — permanently
rejected (`BotBlocked`) targets do not prevent the advance (they are queued
for unregistration at cycle end); a transient failure on any target leaves
the watermark unchanged. -/
theorem c2_watermark_advance (resolve : String → Option Int)
    (send : Flight → Int → SendResult) (st : StateMap) (tU : List (Pilot × Int))
    (f : Flight) (p : Pilot) (d : PilotData)
    (hp : Flight.pilot f = some p)
    (hfind : stateFind st p = some d)
    (hnew : d.latest_flight.micros < f.datetime.micros) :
    processOne resolve send st tU f =
      (match dispatchChats (send f) d.chat_ids with
       | .aborted s b =>
          .ok (st, tU ++ b.map (fun c => (p, c)),
               s.map (fun c => Act.sent f c) ++ [Act.sleptBackoff])
       | .done s b =>
          .ok (stateInsert st p { d with latest_flight := f.datetime },
               tU ++ b.map (fun c => (p, c)),
               s.map (fun c => Act.sent f c) ++ [Act.posted f])) := by
  have hle : ¬ f.datetime.micros ≤ d.latest_flight.micros := not_le.mpr hnew
  cases hdc : dispatchChats (send f) d.chat_ids with
  | aborted s b => simp [processOne, lookupOrRename, hp, hfind, hle, hdc]
  | done s b => simp [processOne, lookupOrRename, hp, hfind, hle, hdc]

/-- Witness for C2 amended at the all-blocked fixture. -/
theorem c2_watermark_advance_witness :
    processOne (fun _ => none) sendBlocked
        [(pilotA, { chat_ids := [10], latest_flight := ⟨0⟩ })] [] flightA1 =
      (match dispatchChats (sendBlocked flightA1) [10] with
       | .aborted s b =>
          .ok ([(pilotA, { chat_ids := [10], latest_flight := ⟨0⟩ })],
               [] ++ b.map (fun c => (Pilot.mk "Bull77" none, c)),
               s.map (fun c => Act.sent flightA1 c) ++ [Act.sleptBackoff])
       | .done s b =>
          .ok (stateInsert [(pilotA, { chat_ids := [10], latest_flight := ⟨0⟩ })]
                 (Pilot.mk "Bull77" none)
                 { chat_ids := [10], latest_flight := flightA1.datetime },
               [] ++ b.map (fun c => (Pilot.mk "Bull77" none, c)),
               s.map (fun c => Act.sent flightA1 c) ++ [Act.posted flightA1])) :=
  c2_watermark_advance (fun _ => none) sendBlocked
    [(pilotA, { chat_ids := [10], latest_flight := ⟨0⟩ })] [] flightA1
    (Pilot.mk "Bull77" none) { chat_ids := [10], latest_flight := ⟨0⟩ }
    (by rfl) (by rfl) (by decide)

/-- Flight fixture owned by a handle that no subscription record carries. -/
def flightB : Flight :=
  { title := "19.05.20 [10.00 km :: free_flight] C"
    link := "https://www.xcontest.org/cesko/prelety/detail:Nova42/19.05.2020/09:00"
    datetime := ⟨1⟩ }

/-- Resolver fixture: the unknown handle resolves to id 2, which no record
in the fixture state carries. -/
def resolveNova : String → Option Int :=
  fun u => if u = "Nova42" then some 2 else none

/-- C6 counterexample: when a fetched flight's owning identity has no
subscription record and no record matches the re-resolved stable id either,
the flight is NOT skipped: `get_state_item_by_pilot_id` raises `ValueError`,
which is uncaught in `watch`, so the whole batch processing aborts with the
error (the remaining flight `flightA2` — which on its own would be
dispatched, second conjunct — is dropped and the watch task dies). -/
theorem c6_rename_counterexample :
    processFlights resolveNova (fun _ _ => SendResult.ok)
        [(pilotA, { chat_ids := [10], latest_flight := ⟨0⟩ })] [] [] [flightB, flightA2] =
      .error "Pilot with id not found in the state"
    ∧ processFlights resolveNova (fun _ _ => SendResult.ok)
        [(pilotA, { chat_ids := [10], latest_flight := ⟨0⟩ })] [] [] [flightA2] =
      .ok ([(pilotA, { chat_ids := [10], latest_flight := ⟨2⟩ })], [],
        [Act.sent flightA2 10, Act.posted flightA2]) :=
  ⟨rfl, rfl⟩

/-- C6 amended: when a fetched flight's owning identity has no subscription
record, the loop re-resolves the embedded handle and rekeys the existing
record found by stable id (preserving its data); but if no record matches
the stable id, the `ValueError` of `get_state_item_by_pilot_id` propagates
and aborts the processing of the whole batch (terminating the watch task)
rather than skipping the flight. -/
theorem c6_rename_recovery (resolve : String → Option Int)
    (send : Flight → Int → SendResult) (st : StateMap) (tU : List (Pilot × Int))
    (acc : List Act) (f : Flight) (fs : List Flight) (p : Pilot) (i : Int)
    (hp : Flight.pilot f = some p)
    (hmiss : stateFind st p = none)
    (hres : resolve p.username = some i) :
    (findById st i = none →
       processFlights resolve send st tU acc (f :: fs) =
         .error "Pilot with id not found in the state")
    ∧ (∀ old d, findById st i = some (old, d) →
         lookupOrRename resolve st p =
           .ok ({ username := p.username, id := some i }, d,
                stateErase (stateInsert st { username := p.username, id := some i } d) old,
                [Act.renamed old { username := p.username, id := some i }])) := by
  constructor
  · intro hnone
    simp [processFlights, processOne, lookupOrRename, hp, hmiss, hres,
      get_state_item_by_pilot_id, hnone]
  · intro old d hfound
    simp [lookupOrRename, hmiss, hres, get_state_item_by_pilot_id, hfound]

/-- Witness for C6 amended at the concrete fixture. -/
theorem c6_rename_recovery_witness :
    processFlights resolveNova (fun _ _ => SendResult.ok)
        [(pilotA, { chat_ids := [10], latest_flight := ⟨0⟩ })] [] [] (flightB :: [flightA2]) =
      .error "Pilot with id not found in the state" :=
  (c6_rename_recovery resolveNova (fun _ _ => SendResult.ok)
      [(pilotA, { chat_ids := [10], latest_flight := ⟨0⟩ })] [] [] flightB [flightA2]
      (Pilot.mk "Nova42" none) 2 (by rfl) (by rfl) (by rfl)).1 (by rfl)

-- Lemmas about the state dictionary, used for the watermark monotonicity
-- claim.

theorem usernameNodup_tail {e : Pilot × PilotData} {t : StateMap}
    (h : usernameNodup (e :: t)) : usernameNodup t := by
  simp only [usernameNodup, List.map_cons, List.nodup_cons] at h
  exact h.2

theorem idNodup_tail {e : Pilot × PilotData} {t : StateMap}
    (h : idNodup (e :: t)) : idNodup t := by
  unfold idNodup at h ⊢
  rw [List.filterMap_cons] at h
  cases hid : e.1.id with
  | none => rwa [hid] at h
  | some j =>
    rw [hid] at h
    exact h.of_cons

theorem not_mem_ids_of_idNodup {e : Pilot × PilotData} {t : StateMap} {i : Int}
    (h : idNodup (e :: t)) (hid : e.1.id = some i) :
    ∀ x ∈ t, x.1.id ≠ some i := by
  unfold idNodup at h
  rw [List.filterMap_cons, hid] at h
  intro x hx hxe
  have hm : i ∈ t.filterMap (fun e => e.1.id) := List.mem_filterMap.mpr ⟨x, hx, hxe⟩
  exact (List.nodup_cons.mp h).1 hm

theorem findById_mem {st : StateMap} {i : Int} {e : Pilot × PilotData}
    (h : findById st i = some e) : e ∈ st ∧ e.1.id = some i := by
  induction st with
  | nil => cases h
  | cons h0 t ih =>
    by_cases hid : h0.1.id = some i
    · simp only [findById, if_pos hid] at h
      obtain rfl : h0 = e := Option.some.inj h
      exact ⟨List.mem_cons_self _ _, hid⟩
    · simp only [findById, if_neg hid] at h
      rcases ih h with ⟨h1, h2⟩
      exact ⟨List.mem_cons_of_mem _ h1, h2⟩

theorem findById_of_mem_idNodup {st : StateMap} {e : Pilot × PilotData} {i : Int}
    (hi : idNodup st) (hmem : e ∈ st) (hid : e.1.id = some i) :
    findById st i = some e := by
  induction st with
  | nil => cases hmem
  | cons h0 t ih =>
    rcases List.mem_cons.mp hmem with rfl | hmem2
    · simp [findById, hid]
    · have hne : h0.1.id ≠ some i := fun hh =>
        not_mem_ids_of_idNodup hi hh e hmem2 hid
      simp only [findById, if_neg hne]
      exact ih (idNodup_tail hi) hmem2

theorem stateFind_none_iff (st : StateMap) (p : Pilot) :
    stateFind st p = none ↔ p.username ∉ st.map (fun e => e.1.username) := by
  induction st with
  | nil => simp [stateFind]
  | cons e t ih =>
    obtain ⟨k, v⟩ := e
    by_cases hk : k.username = p.username
    · simp [stateFind, hk]
    · have hk' : p.username ≠ k.username := fun h => hk h.symm
      simp [stateFind, hk, ih, hk']

theorem stateInsert_keys_of_found (st : StateMap) (p : Pilot) (d' : PilotData)
    (h : stateFind st p ≠ none) :
    (stateInsert st p d').map (fun e => e.1) = st.map (fun e => e.1) := by
  induction st with
  | nil => simp [stateFind] at h
  | cons e t ih =>
    obtain ⟨k, v⟩ := e
    by_cases hk : k.username = p.username
    · simp [stateInsert, hk]
    · simp only [stateFind, if_neg hk] at h
      simp [stateInsert, hk, ih h]

theorem stateErase_sublist (st : StateMap) (p : Pilot) :
    (stateErase st p).Sublist st := by
  induction st with
  | nil => simp [stateErase]
  | cons e t ih =>
    obtain ⟨k, v⟩ := e
    by_cases hk : k.username = p.username
    · simp only [stateErase, if_pos hk]
      exact List.sublist_cons_self _ _
    · simp only [stateErase, if_neg hk]
      exact ih.cons₂ _

theorem stateErase_entries {st : StateMap} {q : Pilot} (hu : usernameNodup st) :
    ∀ e ∈ stateErase st q, e ∈ st ∧ e.1.username ≠ q.username := by
  induction st with
  | nil =>
    intro e he
    simp [stateErase] at he
  | cons h0 t ih =>
    intro e he
    obtain ⟨k, v⟩ := h0
    have hu' : usernameNodup t := usernameNodup_tail hu
    simp only [usernameNodup, List.map_cons, List.nodup_cons] at hu
    by_cases hk : k.username = q.username
    · simp only [stateErase, if_pos hk] at he
      refine ⟨List.mem_cons_of_mem _ he, fun hq => ?_⟩
      have hmm : e.1.username ∈ t.map (fun x => x.1.username) :=
        List.mem_map_of_mem (fun x => x.1.username) he
      rw [hq, ← hk] at hmm
      exact hu.1 hmm
    · simp only [stateErase, if_neg hk] at he
      rcases List.mem_cons.mp he with rfl | he'
      · exact ⟨List.mem_cons_self _ _, hk⟩
      · rcases ih hu' e he' with ⟨h1, h2⟩
        exact ⟨List.mem_cons_of_mem _ h1, h2⟩

theorem mem_stateErase_of_username_ne {st : StateMap} {q : Pilot}
    {e : Pilot × PilotData} (hmem : e ∈ st) (hne : e.1.username ≠ q.username) :
    e ∈ stateErase st q := by
  induction st with
  | nil => cases hmem
  | cons h0 t ih =>
    obtain ⟨k, v⟩ := h0
    rcases List.mem_cons.mp hmem with rfl | hmem'
    · simp only [stateErase, if_neg hne]
      exact List.mem_cons_self _ _
    · by_cases hk : k.username = q.username
      · simp only [stateErase, if_pos hk]
        exact hmem'
      · simp only [stateErase, if_neg hk]
        exact List.mem_cons_of_mem _ (ih hmem')

theorem findById_eq_none_iff (st : StateMap) (i : Int) :
    findById st i = none ↔ ∀ e ∈ st, e.1.id ≠ some i := by
  induction st with
  | nil => simp [findById]
  | cons e t ih =>
    by_cases hid : e.1.id = some i
    · simp [findById, hid]
    · simp [findById, hid, ih]

theorem findById_append (l1 l2 : StateMap) (i : Int) :
    findById (l1 ++ l2) i =
      (match findById l1 i with
       | some e => some e
       | none => findById l2 i) := by
  induction l1 with
  | nil => simp [findById]
  | cons e t ih =>
    by_cases hid : e.1.id = some i
    · simp [findById, hid]
    · simp [findById, hid, ih]

theorem stateErase_append_left {st : StateMap} {q : Pilot}
    (h : q.username ∈ st.map (fun e => e.1.username)) (l2 : StateMap) :
    stateErase (st ++ l2) q = stateErase st q ++ l2 := by
  induction st with
  | nil => simp at h
  | cons e t ih =>
    obtain ⟨k, v⟩ := e
    by_cases hk : k.username = q.username
    · simp [stateErase, hk]
    · simp only [List.map_cons, List.mem_cons] at h
      rcases h with h | h
    -- h : q.username = k.username contradicts hk
      · exact absurd h.symm hk
      · simp [stateErase, hk, ih h]

theorem findById_stateInsert {st : StateMap} (p : Pilot) (d' : PilotData)
    (hu : usernameNodup st) {i : Int} {e : Pilot × PilotData}
    (hfind : findById st i = some e) :
    (e.1.username ≠ p.username ∧ findById (stateInsert st p d') i = some e)
    ∨ (e.1.username = p.username ∧ stateFind st p = some e.2
       ∧ findById (stateInsert st p d') i = some (e.1, d')) := by
  induction st with
  | nil => cases hfind
  | cons h0 t ih =>
    obtain ⟨k0, v0⟩ := h0
    have hu' : usernameNodup t := usernameNodup_tail hu
    simp only [usernameNodup, List.map_cons, List.nodup_cons] at hu
    by_cases hk0 : k0.username = p.username
    · by_cases hid : k0.id = some i
      · simp only [findById, if_pos hid] at hfind
        obtain rfl : (k0, v0) = e := Option.some.inj hfind
        right
        refine ⟨hk0, by simp [stateFind, hk0], ?_⟩
        simp [stateInsert, hk0, findById, hid]
      · simp only [findById, if_neg hid] at hfind
        left
        have hkmem := findById_mem hfind
        have hkneq : e.1.username ≠ p.username := by
          intro hkp
          have hmm : e.1.username ∈ t.map (fun x => x.1.username) :=
            List.mem_map_of_mem (fun x => x.1.username) hkmem.1
          rw [hkp, ← hk0] at hmm
          exact hu.1 hmm
        refine ⟨hkneq, ?_⟩
        simp [stateInsert, hk0, findById, hid, hfind]
    · by_cases hid : k0.id = some i
      · simp only [findById, if_pos hid] at hfind
        obtain rfl : (k0, v0) = e := Option.some.inj hfind
        left
        refine ⟨hk0, ?_⟩
        simp [stateInsert, hk0, findById, hid]
      · simp only [findById, if_neg hid] at hfind
        rcases ih hu' hfind with ⟨h1, h2⟩ | ⟨h1, h2, h3⟩
        · left
          refine ⟨h1, ?_⟩
          simp [stateInsert, hk0, findById, hid, h2]
        · right
          refine ⟨h1, ?_, ?_⟩
          · simp [stateFind, hk0, h2]
          · simp [stateInsert, hk0, findById, hid, h3]

theorem stateFind_append (l1 l2 : StateMap) (p : Pilot) :
    stateFind (l1 ++ l2) p =
      (match stateFind l1 p with
       | some d => some d
       | none => stateFind l2 p) := by
  induction l1 with
  | nil => simp [stateFind]
  | cons e t ih =>
    obtain ⟨k, v⟩ := e
    by_cases hk : k.username = p.username
    · simp [stateFind, hk]
    · simp [stateFind, hk, ih]

theorem username_unique {st : StateMap} (hu : usernameNodup st)
    {e1 e2 : Pilot × PilotData} (h1 : e1 ∈ st) (h2 : e2 ∈ st)
    (he : e1.1.username = e2.1.username) : e1 = e2 := by
  induction st with
  | nil => cases h1
  | cons h0 t ih =>
    simp only [usernameNodup, List.map_cons, List.nodup_cons] at hu
    rcases List.mem_cons.mp h1 with rfl | h1'
    · rcases List.mem_cons.mp h2 with rfl | h2'
      · rfl
      · exfalso
        have hmm : e2.1.username ∈ t.map (fun x => x.1.username) :=
          List.mem_map_of_mem _ h2'
        rw [← he] at hmm
        exact hu.1 hmm
    · rcases List.mem_cons.mp h2 with rfl | h2'
      · exfalso
        have hmm : e1.1.username ∈ t.map (fun x => x.1.username) :=
          List.mem_map_of_mem _ h1'
        rw [he] at hmm
        exact hu.1 hmm
      · exact ih hu.2 h1' h2'

theorem lookupOrRename_step {resolve : String → Option Int} {st : StateMap}
    {p key : Pilot} {d0 : PilotData} {st1 : StateMap} {ra : List Act}
    (hu : usernameNodup st) (hi : idNodup st)
    (hok : lookupOrRename resolve st p = .ok (key, d0, st1, ra)) :
    usernameNodup st1 ∧ idNodup st1 ∧ stateFind st1 key = some d0 ∧
    ∀ (i : Int) (e : Pilot × PilotData), findById st i = some e →
      ∃ k' : Pilot, findById st1 i = some (k', e.2) := by
  cases hsf : stateFind st p with
  | some d =>
    simp only [lookupOrRename, hsf, Except.ok.injEq, Prod.mk.injEq] at hok
    obtain ⟨rfl, rfl, rfl, rfl⟩ := hok
    exact ⟨hu, hi, hsf, fun i e h => ⟨e.1, h⟩⟩
  | none =>
    cases hres : resolve p.username with
    | none => simp [lookupOrRename, hsf, hres] at hok
    | some i0 =>
      cases hfound : findById st i0 with
      | none =>
        simp [lookupOrRename, hsf, hres, get_state_item_by_pilot_id, hfound] at hok
      | some eold =>
        obtain ⟨old, dold⟩ := eold
        simp only [lookupOrRename, hsf, hres, get_state_item_by_pilot_id, hfound,
          Except.ok.injEq, Prod.mk.injEq] at hok
        obtain ⟨rfl, rfl, rfl, rfl⟩ := hok
        have hnotin : p.username ∉ st.map (fun e => e.1.username) :=
          (stateFind_none_iff st p).mp hsf
        have hmemold := findById_mem hfound
        have hins : stateInsert st ⟨p.username, some i0⟩ dold
            = st ++ [(⟨p.username, some i0⟩, dold)] :=
          stateInsert_append_of_not_mem st _ dold hnotin
        have holdu : old.username ∈ st.map (fun e => e.1.username) :=
          List.mem_map_of_mem (fun e => e.1.username) hmemold.1
        have herase : stateErase (st ++ [(⟨p.username, some i0⟩, dold)]) old
            = stateErase st old ++ [(⟨p.username, some i0⟩, dold)] :=
          stateErase_append_left holdu _
        rw [hins, herase]
        have hsubk : (stateErase st old).Sublist st := stateErase_sublist st old
        have hndu : ((stateErase st old).map (fun e => e.1.username)).Nodup :=
          List.Nodup.sublist (hsubk.map _) hu
        have hndir : ((stateErase st old).filterMap (fun e => e.1.id)).Nodup :=
          List.Nodup.sublist (hsubk.filterMap _) hi
        have hnotin2 : p.username ∉ (stateErase st old).map (fun e => e.1.username) :=
          fun hm => hnotin ((hsubk.map _).subset hm)
        have hid0none : ∀ e2 ∈ stateErase st old, e2.1.id ≠ some i0 := by
          intro e2 he2 hide2
          rcases stateErase_entries hu e2 he2 with ⟨hin, hne⟩
          have := findById_of_mem_idNodup hi hin hide2
          rw [hfound] at this
          obtain rfl : (old, dold) = e2 := Option.some.inj this
          exact hne rfl
        refine ⟨?_, ?_, ?_, ?_⟩
        · simp only [usernameNodup, List.map_append, List.map_cons, List.map_nil]
          refine List.Nodup.append hndu (List.nodup_singleton _) ?_
          intro a ha hb
          simp only [List.mem_singleton] at hb
          subst hb
          exact hnotin2 ha
        · simp only [idNodup, List.filterMap_append]
          have hone : ([(Pilot.mk p.username (some i0), dold)] : StateMap).filterMap
              (fun e => e.1.id) = [i0] := rfl
          rw [hone]
          refine List.Nodup.append hndir (List.nodup_singleton _) ?_
          intro a ha hb
          simp only [List.mem_singleton] at hb
          subst hb
          rcases List.mem_filterMap.mp ha with ⟨e2, he2, hide2⟩
          exact hid0none e2 he2 hide2
        · rw [stateFind_append]
          have hnone2 : stateFind (stateErase st old) ⟨p.username, some i0⟩ = none :=
            (stateFind_none_iff _ _).mpr hnotin2
          rw [hnone2]
          simp [stateFind]
        · intro i e hfe
          by_cases hii : i = i0
          · subst hii
            rw [hfound] at hfe
            obtain rfl : (old, dold) = e := Option.some.inj hfe
            refine ⟨⟨p.username, some i⟩, ?_⟩
            rw [findById_append]
            have hnone3 : findById (stateErase st old) i = none :=
              (findById_eq_none_iff _ _).mpr hid0none
            rw [hnone3]
            simp [findById]
          · have hme := findById_mem hfe
            have hneold : e.1.username ≠ old.username := by
              intro heq
              have := username_unique hu hme.1 hmemold.1 heq
              subst this
              exact hii (Option.some.inj (hme.2.symm.trans hmemold.2))
            have hmem2 : e ∈ stateErase st old :=
              mem_stateErase_of_username_ne hme.1 hneold
            have hfind2 : findById (stateErase st old) i = some e :=
              findById_of_mem_idNodup hndir hmem2 hme.2
            refine ⟨e.1, ?_⟩
            rw [findById_append, hfind2]

theorem processOne_step {resolve : String → Option Int} {send : Flight → Int → SendResult}
    {st : StateMap} {tU : List (Pilot × Int)} {f : Flight}
    {st1 : StateMap} {tU1 : List (Pilot × Int)} {a : List Act}
    (hu : usernameNodup st) (hi : idNodup st)
    (hok : processOne resolve send st tU f = .ok (st1, tU1, a)) :
    usernameNodup st1 ∧ idNodup st1 ∧
    ∀ (i : Int) (e : Pilot × PilotData), findById st i = some e →
      ∃ e' : Pilot × PilotData, findById st1 i = some e'
        ∧ e.2.latest_flight.micros ≤ e'.2.latest_flight.micros := by
  cases hp : Flight.pilot f with
  | none => simp [processOne, hp] at hok
  | some p =>
    cases hlr : lookupOrRename resolve st p with
    | error e0 => simp [processOne, hp, hlr] at hok
    | ok r =>
      obtain ⟨key, d0, stR, ra⟩ := r
      obtain ⟨huR, hiR, hfR, hvalR⟩ := lookupOrRename_step hu hi hlr
      by_cases hnov : f.datetime.micros ≤ d0.latest_flight.micros
      · simp only [processOne, hp, hlr, if_pos hnov, Except.ok.injEq, Prod.mk.injEq] at hok
        obtain ⟨rfl, rfl, rfl⟩ := hok
        refine ⟨huR, hiR, fun i e h => ?_⟩
        obtain ⟨k', h'⟩ := hvalR i e h
        exact ⟨(k', e.2), h', le_refl _⟩
      · cases hdc : dispatchChats (send f) d0.chat_ids with
        | aborted s b =>
          simp only [processOne, hp, hlr, if_neg hnov, hdc, Except.ok.injEq,
            Prod.mk.injEq] at hok
          obtain ⟨rfl, rfl, rfl⟩ := hok
          refine ⟨huR, hiR, fun i e h => ?_⟩
          obtain ⟨k', h'⟩ := hvalR i e h
          exact ⟨(k', e.2), h', le_refl _⟩
        | done s b =>
          simp only [processOne, hp, hlr, if_neg hnov, hdc, Except.ok.injEq,
            Prod.mk.injEq] at hok
          obtain ⟨rfl, rfl, rfl⟩ := hok
          have hkeyne : stateFind stR key ≠ none := by
            rw [hfR]
            exact Option.some_ne_none _
          have hkeys := stateInsert_keys_of_found stR key
            { d0 with latest_flight := f.datetime } hkeyne
          have hmapu : ∀ (l : StateMap), l.map (fun e => e.1.username)
              = (l.map (fun e => e.1)).map (fun k => k.username) := by
            intro l
            rw [List.map_map]
            rfl
          have hmapi : ∀ (l : StateMap), l.filterMap (fun e => e.1.id)
              = (l.map (fun e => e.1)).filterMap (fun k => k.id) := by
            intro l
            rw [List.filterMap_map]
            rfl
          refine ⟨?_, ?_, ?_⟩
          · unfold usernameNodup at huR ⊢
            rw [hmapu, hkeys, ← hmapu]
            exact huR
          · unfold idNodup at hiR ⊢
            rw [hmapi, hkeys, ← hmapi]
            exact hiR
          · intro i e h
            obtain ⟨k', h'⟩ := hvalR i e h
            rcases findById_stateInsert key { d0 with latest_flight := f.datetime }
                huR h' with ⟨hne, hfind'⟩ | ⟨heq, hsf2, hfind'⟩
            · exact ⟨(k', e.2), hfind', le_refl _⟩
            · have hde : e.2 = d0 := by
                have := hsf2.symm.trans hfR
                exact Option.some.inj this
              refine ⟨(k', { d0 with latest_flight := f.datetime }), hfind', ?_⟩
              rw [hde]
              exact le_of_lt (lt_of_not_le hnov)

theorem processFlights_mono {resolve : String → Option Int}
    {send : Flight → Int → SendResult} (fs : List Flight) :
    ∀ (st : StateMap) (tU : List (Pilot × Int)) (acc : List Act)
      (st1 : StateMap) (tU1 : List (Pilot × Int)) (a : List Act),
    usernameNodup st → idNodup st →
    processFlights resolve send st tU acc fs = .ok (st1, tU1, a) →
    usernameNodup st1 ∧ idNodup st1 ∧
    ∀ (i : Int) (e : Pilot × PilotData), findById st i = some e →
      ∃ e' : Pilot × PilotData, findById st1 i = some e'
        ∧ e.2.latest_flight.micros ≤ e'.2.latest_flight.micros := by
  induction fs with
  | nil =>
    intro st tU acc st1 tU1 a hu hi hok
    simp only [processFlights, Except.ok.injEq, Prod.mk.injEq] at hok
    obtain ⟨rfl, rfl, rfl⟩ := hok
    exact ⟨hu, hi, fun i e h => ⟨e, h, le_refl _⟩⟩
  | cons f ft ih =>
    intro st tU acc st1 tU1 a hu hi hok
    cases hpo : processOne resolve send st tU f with
    | error e0 => simp [processFlights, hpo] at hok
    | ok r =>
      obtain ⟨stm, tUm, am⟩ := r
      obtain ⟨hum, him, hvalm⟩ := processOne_step hu hi hpo
      simp only [processFlights, hpo] at hok
      obtain ⟨hu1, hi1, hval1⟩ := ih stm tUm (acc ++ am) st1 tU1 a hum him hok
      refine ⟨hu1, hi1, fun i e h => ?_⟩
      obtain ⟨e', h', hle'⟩ := hvalm i e h
      obtain ⟨e2, h2, hle2⟩ := hval1 i e' h'
      exact ⟨e2, h2, le_trans hle' hle2⟩

theorem unregisterOne_back {st : StateMap} {p : Pilot} {c : Int} {st1 : StateMap}
    (hu : usernameNodup st) (hi : idNodup st)
    (hok : unregisterOne st p c = .ok st1) :
    usernameNodup st1 ∧ idNodup st1 ∧
    ∀ (i : Int) (e : Pilot × PilotData), findById st1 i = some e →
      ∃ d : PilotData, findById st i = some (e.1, d)
        ∧ d.latest_flight = e.2.latest_flight := by
  cases hsf : stateFind st p with
  | none => simp [unregisterOne, hsf] at hok
  | some d =>
    by_cases hcm : c ∈ d.chat_ids
    · cases hemp : (d.chat_ids.erase c).isEmpty with
      | true =>
        simp only [unregisterOne, hsf, setRemove, if_pos hcm, hemp, if_true,
          Except.ok.injEq] at hok
        subst hok
        have hsubk : (stateErase st p).Sublist st := stateErase_sublist st p
        refine ⟨List.Nodup.sublist (hsubk.map _) hu,
          List.Nodup.sublist (hsubk.filterMap _) hi, fun i e h => ?_⟩
        have hme := findById_mem h
        rcases stateErase_entries hu e hme.1 with ⟨hin, _⟩
        exact ⟨e.2, findById_of_mem_idNodup hi hin hme.2, rfl⟩
      | false =>
        simp only [unregisterOne, hsf, setRemove, if_pos hcm, hemp,
          Bool.false_eq_true, if_false, Except.ok.injEq] at hok
        subst hok
        have hkeyne : stateFind st p ≠ none := by
          rw [hsf]
          exact Option.some_ne_none _
        have hkeys := stateInsert_keys_of_found st p
          { d with chat_ids := d.chat_ids.erase c } hkeyne
        have hmapu : ∀ (l : StateMap), l.map (fun e => e.1.username)
            = (l.map (fun e => e.1)).map (fun k => k.username) := by
          intro l
          rw [List.map_map]
          rfl
        have hmapi : ∀ (l : StateMap), l.filterMap (fun e => e.1.id)
            = (l.map (fun e => e.1)).filterMap (fun k => k.id) := by
          intro l
          rw [List.filterMap_map]
          rfl
        refine ⟨?_, ?_, ?_⟩
        · unfold usernameNodup at hu ⊢
          rw [hmapu, hkeys, ← hmapu]
          exact hu
        · unfold idNodup at hi ⊢
          rw [hmapi, hkeys, ← hmapi]
          exact hi
        · intro i e h
          obtain ⟨ek, ed⟩ := e
          have hnn : findById st i ≠ none := by
            intro hnone
            have hall := (findById_eq_none_iff st i).mp hnone
            have hme := findById_mem h
            have hkin : (ek, ed).1 ∈ (stateInsert st p
                { d with chat_ids := d.chat_ids.erase c }).map (fun x => x.1) :=
              List.mem_map_of_mem _ hme.1
            rw [hkeys] at hkin
            rcases List.mem_map.mp hkin with ⟨e2, he2, hke⟩
            apply hall e2 he2
            rw [hke]
            exact hme.2
          cases hf0 : findById st i with
          | none => exact absurd hf0 hnn
          | some e0 =>
            obtain ⟨e0k, e0d⟩ := e0
            rcases findById_stateInsert p { d with chat_ids := d.chat_ids.erase c }
                hu hf0 with ⟨hne, hfind'⟩ | ⟨heq, hsf0, hfind'⟩
            · rw [h] at hfind'
              obtain ⟨rfl, rfl⟩ : ek = e0k ∧ ed = e0d := by
                have h2 := Option.some.inj hfind'
                exact ⟨congrArg Prod.fst h2, congrArg Prod.snd h2⟩
              exact ⟨ed, by simp [hf0], rfl⟩
            · rw [h] at hfind'
              obtain ⟨rfl, rfl⟩ :
                  ek = e0k ∧ ed = { d with chat_ids := d.chat_ids.erase c } := by
                have h2 := Option.some.inj hfind'
                exact ⟨congrArg Prod.fst h2, congrArg Prod.snd h2⟩
              have hd0 : e0d = d := Option.some.inj (hsf0.symm.trans hsf)
              refine ⟨e0d, by simp [hf0], ?_⟩
              rw [hd0]
    · simp [unregisterOne, hsf, setRemove, hcm] at hok

theorem runUnregisters_back {tU : List (Pilot × Int)} :
    ∀ (st st1 : StateMap), usernameNodup st → idNodup st →
    runUnregisters st tU = .ok st1 →
    usernameNodup st1 ∧ idNodup st1 ∧
    ∀ (i : Int) (e : Pilot × PilotData), findById st1 i = some e →
      ∃ d : PilotData, findById st i = some (e.1, d)
        ∧ d.latest_flight = e.2.latest_flight := by
  induction tU with
  | nil =>
    intro st st1 hu hi hok
    simp only [runUnregisters, Except.ok.injEq] at hok
    subst hok
    exact ⟨hu, hi, fun i e h => ⟨e.2, h, rfl⟩⟩
  | cons pc t ih =>
    obtain ⟨p, c⟩ := pc
    intro st st1 hu hi hok
    cases huo : unregisterOne st p c with
    | error e0 => simp [runUnregisters, huo] at hok
    | ok stm =>
      obtain ⟨hum, him, hbm⟩ := unregisterOne_back hu hi huo
      simp only [runUnregisters, huo] at hok
      obtain ⟨hu1, hi1, hb1⟩ := ih stm st1 hum him hok
      refine ⟨hu1, hi1, fun i e h => ?_⟩
      obtain ⟨dmid, hmid, hlf1⟩ := hb1 i e h
      obtain ⟨d2, h2, hlf2⟩ := hbm i (e.1, dmid) hmid
      exact ⟨d2, h2, by rw [hlf2, ← hlf1]⟩

/-- C5: watermark monotonicity.  Over one full poll cycle that runs to
completion — any interleaving of novelty skips, successful dispatches,
transient dispatch failures, permanent-rejection unregistrations and rename
migrations — the watermark stored for an identity (tracked by its stable id
across renames) never decreases. -/
theorem c5_watermark_monotonicity (resolve : String → Option Int)
    (send : Flight → Int → SendResult) (fetchOk : Bool) (feed : List Flight)
    (st stF : StateMap) (acts : List Act) (i : Int)
    (k k2 : Pilot) (d d2 : PilotData)
    (hu : usernameNodup st) (hi : idNodup st)
    (hrun : watchCycle resolve send fetchOk feed st = (.ran stF, acts))
    (h1 : findById st i = some (k, d))
    (h2 : findById stF i = some (k2, d2)) :
    d.latest_flight.micros ≤ d2.latest_flight.micros := by
  unfold watchCycle at hrun
  by_cases he : (pilotIds st).isEmpty
  · rw [if_pos he] at hrun
    simp at hrun
  · rw [if_neg he] at hrun
    cases fetchOk with
    | false => simp at hrun
    | true =>
      rw [if_pos rfl] at hrun
      split at hrun
      next e0 heq => simp at hrun
      next st1 tU actsP heq =>
        split at hrun
        next e0 heq2 => simp at hrun
        next st2 heq2 =>
          simp only [Prod.mk.injEq, CycleResult.ran.injEq] at hrun
          obtain ⟨rfl, rfl⟩ := hrun
          obtain ⟨hu1, hi1, hval⟩ := processFlights_mono (sortFlights feed) st []
            [.fetched] st1 tU actsP hu hi heq
          obtain ⟨e', h', hle⟩ := hval i (k, d) h1
          obtain ⟨hu2, hi2, hback⟩ := runUnregisters_back st1 st2 hu1 hi1 heq2
          obtain ⟨dmid, hmid, hlf⟩ := hback i (k2, d2) h2
          rw [h'] at hmid
          obtain rfl := Option.some.inj hmid
          calc d.latest_flight.micros ≤ dmid.latest_flight.micros := hle
            _ = d2.latest_flight.micros := by rw [hlf]

/-- Witness for C5 at a one-flight cycle that advances the watermark of the
fixture pilot from instant 0 to instant 1. -/
theorem c5_watermark_monotonicity_witness :
    (PilotData.mk [10] ⟨0⟩).latest_flight.micros
      ≤ (PilotData.mk [10] ⟨1⟩).latest_flight.micros :=
  c5_watermark_monotonicity (fun _ => none) (fun _ _ => SendResult.ok) true [flightA1]
    [(pilotA, ⟨[10], ⟨0⟩⟩)] [(pilotA, ⟨[10], ⟨1⟩⟩)]
    [Act.fetched, Act.sent flightA1 10, Act.posted flightA1, Act.savedState] 1
    pilotA pilotA ⟨[10], ⟨0⟩⟩ ⟨[10], ⟨1⟩⟩
    (by unfold usernameNodup; decide) (by unfold idNodup; decide)
    (by rfl) (by rfl) (by rfl)
